import Mathlib

/-!
Verification development for the peerko peer-to-peer overlay.

The first part embeds the binary message codec of src/message/format.rs:
the 4-byte header, the MemberRequest / MemberResponse / Chat payloads and
their encoders and decoders.  Rust strings are modelled as lists of bytes
(their UTF-8 representation), machine bytes as Nat values below 256, and
every fallible operation returns a DResult, whose panicked constructor
models a Rust panic (an unwrap on a failed read, a failed UTF-8 conversion,
or the panic in MessageType::from).

The second part embeds the neighbour directory of src/peer/structures.rs
and the message-handler arms of src/peer/mod.rs.  Instants are modelled as
natural numbers (seconds); the shared map from group name to neighbour
list is an association list whose lookup takes the first matching key.
-/

set_option maxRecDepth 4096

namespace Peerko

/-- Result of a fallible Rust operation.  `panicked` models an
unrecoverable fault (an `unwrap` on an error, or an explicit `panic!`),
`formatError` models returning `Err(FormatError)`. -/
inductive DResult (α : Type) where
  | ok (a : α)
  | formatError
  | panicked
deriving DecidableEq

/-- The FormatError struct of format.rs (its message string). -/
structure FormatError where
  error : String
deriving DecidableEq

/-- The fixed magic constant MAGIC_HEADER = 0x9D of format.rs. -/
def MAGIC_HEADER : Nat := 0x9D

/-- The MessageType enum of format.rs. -/
inductive MessageType where
  | alive
  | memberReq
  | memberRes
  | chat
deriving DecidableEq

/-- The discriminant value of each MessageType variant (repr(u8)). -/
def MessageType.code : MessageType → Nat
  | .alive => 0x01
  | .memberReq => 0x02
  | .memberRes => 0x04
  | .chat => 0x08

/-- `impl From<u8> for MessageType` (format.rs lines 89-99).  The wildcard
arm executes `panic!("Wrong message type supplied")`, modelled by
`panicked`. -/
def messageTypeFromU8 (val : Nat) : DResult MessageType :=
  if val = 0x01 then .ok .alive
  else if val = 0x02 then .ok .memberReq
  else if val = 0x04 then .ok .memberRes
  else if val = 0x08 then .ok .chat
  else .panicked

/-- The Header struct of format.rs: magic byte, version, type, size. -/
structure Header where
  magic_bytes : Nat
  version : Nat
  msg_type : MessageType
  size : Nat
deriving DecidableEq

/-- Header::new (format.rs lines 35-42). -/
def Header.new (version : Nat) (t : MessageType) (size : Nat) : Header :=
  { magic_bytes := MAGIC_HEADER, version := version, msg_type := t, size := size }

/-- `impl Into<Vec<u8>> for Header` (format.rs lines 53-61):
`[magic, (version << 4) | type, size >> 8, size & 0xFF]`.  The u8 shift
wraps modulo 256 and the u16 size is written big-endian. -/
def headerIntoBytes (h : Header) : List Nat :=
  [h.magic_bytes % 256,
   (h.version * 16 % 256) ||| h.msg_type.code,
   h.size / 256 % 256,
   h.size % 256]

/-- `impl TryFrom<Vec<u8>> for Header` (format.rs lines 63-78).  The four
cursor reads are each followed by `unwrap`, so a buffer shorter than 4
bytes panics; the version field is set to `version_type & 0xF0` (without
shifting back) and the type nibble goes through MessageType::from, whose
unknown arm panics. -/
def headerTryFrom (bs : List Nat) : DResult Header :=
  match bs with
  | b0 :: b1 :: b2 :: b3 :: _ =>
    match messageTypeFromU8 (b1 &&& 0x0F) with
    | .ok t => .ok { magic_bytes := b0, version := b1 &&& 0xF0, msg_type := t, size := b2 * 256 + b3 }
    | .formatError => .formatError
    | .panicked => .panicked
  | _ => .panicked

/-- Zero-pad a byte string on the right to 32 bytes (the fixed-field
layout used by every payload encoder in format.rs: the field bytes are
copied into a zeroed buffer). -/
def pad32 (l : List Nat) : List Nat :=
  l ++ List.replicate (32 - l.length) 0

/-- The byte filter applied by every payload decoder in format.rs:
`.filter(|s| *s != 0)` before `String::from_utf8`. -/
def stripZeros (l : List Nat) : List Nat :=
  l.filter (fun b => b != 0)

/-- Whether a continuation byte of a UTF-8 sequence is in 0x80..0xBF. -/
def isUtf8Cont (b : Nat) : Bool :=
  decide (0x80 ≤ b) && decide (b ≤ 0xBF)

/-- Admissible range of the first continuation byte, which depends on the
lead byte (RFC 3629: E0, ED, F0 and F4 restrict it, the rest accept any
continuation byte). -/
def firstContOk (b c1 : Nat) : Bool :=
  if b = 0xE0 then decide (0xA0 ≤ c1) && decide (c1 ≤ 0xBF)
  else if b = 0xED then decide (0x80 ≤ c1) && decide (c1 ≤ 0x9F)
  else if b = 0xF0 then decide (0x90 ≤ c1) && decide (c1 ≤ 0xBF)
  else if b = 0xF4 then decide (0x80 ≤ c1) && decide (c1 ≤ 0x8F)
  else isUtf8Cont c1

/-- Consume one UTF-8 scalar whose lead byte is `b` and whose following
bytes start `rest`; returns the remainder, or none if the sequence is
ill-formed. -/
def utf8Chunk (b : Nat) (rest : List Nat) : Option (List Nat) :=
  if b ≤ 0x7F then some rest
  else if decide (0xC2 ≤ b) && decide (b ≤ 0xDF) then
    match rest with
    | c1 :: r => if isUtf8Cont c1 then some r else none
    | _ => none
  else if decide (0xE0 ≤ b) && decide (b ≤ 0xEF) then
    match rest with
    | c1 :: c2 :: r => if firstContOk b c1 && isUtf8Cont c2 then some r else none
    | _ => none
  else if decide (0xF0 ≤ b) && decide (b ≤ 0xF4) then
    match rest with
    | c1 :: c2 :: c3 :: r =>
      if firstContOk b c1 && isUtf8Cont c2 && isUtf8Cont c3 then some r else none
    | _ => none
  else none

/-- The chunk loop: every step consumes at least the lead byte, so the
list length is enough fuel. -/
def utf8ValidLoop : Nat → List Nat → Bool
  | _, [] => true
  | 0, _ :: _ => false
  | fuel + 1, b :: rest =>
    match utf8Chunk b rest with
    | some r => utf8ValidLoop fuel r
    | none => false

/-- Validity of a byte list as UTF-8 (RFC 3629 table), modelling whether
`String::from_utf8` succeeds on it. -/
def utf8Valid (l : List Nat) : Bool :=
  utf8ValidLoop l.length l

/-- The MemberRequest struct of format.rs; the two strings are carried as
their UTF-8 byte lists. -/
structure MemberRequest where
  peer_id : List Nat
  group : List Nat
deriving DecidableEq

/-- MemberRequest::new (format.rs lines 110-120): rejects a group name or
peer id longer than 32 bytes with a FormatError. -/
def memberRequestNew (peer_id group : List Nat) : Except FormatError MemberRequest :=
  if group.length > 32 then .error { error := "Group name exceeds 32." }
  else if peer_id.length > 32 then .error { error := "Peer id exceeds 32." }
  else .ok { peer_id := peer_id, group := group }

/-- `impl Into<Vec<u8>> for MemberRequest` (format.rs lines 131-138): a
64-byte zeroed buffer with the group copied at offset 0 and the peer id at
offset 32.  Defined on the constructor-validated domain (both fields at
most 32 bytes), where the buffer writes are exactly right zero-padding. -/
def memberRequestIntoBytes (m : MemberRequest) : List Nat :=
  pad32 m.group ++ pad32 m.peer_id

/-- `impl TryFrom<Vec<u8>> for MemberRequest` (format.rs lines 140-160):
two 32-byte exact reads (unwrap: shorter input panics), then each field is
filtered of zero bytes and passed to `String::from_utf8(..).unwrap()`
(invalid UTF-8 panics). -/
def memberRequestTryFrom (bs : List Nat) : DResult MemberRequest :=
  if bs.length < 64 then .panicked
  else
    let grp := stripZeros (bs.take 32)
    let pid := stripZeros ((bs.drop 32).take 32)
    if utf8Valid grp ∧ utf8Valid pid then .ok { peer_id := pid, group := grp }
    else .panicked

/-- A socket address: four IPv4 octets and a port (the only address shape
the codec supports). -/
structure SockAddr where
  ip : List Nat
  port : Nat
deriving DecidableEq

/-- The MemberResponse struct of format.rs; peer ids as byte lists. -/
structure MemberResponse where
  group : List Nat
  member_number : Nat
  peers : List (List Nat × SockAddr)
deriving DecidableEq

/-- MemberResponse::new (format.rs lines 172-184): rejects more than 5
peers, then a group name longer than 32 bytes, with a FormatError. -/
def memberResponseNew (group : List Nat) (peers : List (List Nat × SockAddr)) :
    Except FormatError MemberResponse :=
  if peers.length > 5 then .error { error := "More than 5 peer addresses." }
  else if group.length > 32 then .error { error := "Group name exceeds 32." }
  else .ok { group := group, member_number := peers.length, peers := peers }

/-- The port bytes of a record: the big-endian u16 at offset 36. -/
def recordPort (r : List Nat) : Nat :=
  match (r.drop 36).take 2 with
  | [p1, p2] => p1 * 256 + p2
  | _ => 0

/-- The peer parsed from one 38-byte record of a MemberResponse body:
32 id bytes (zero-filtered), 4 IPv4 octets, big-endian port. -/
def decodeRecord (r : List Nat) : List Nat × SockAddr :=
  (stripZeros (r.take 32), { ip := (r.drop 32).take 4, port := recordPort r })

/-- The decode loop of `impl TryFrom<Vec<u8>> for MemberResponse`
(format.rs lines 240-251): reads `n` records of 38 bytes each; every read
and UTF-8 conversion is unwrapped, so a short buffer or invalid id
panics. -/
def readPeerRecords (n : Nat) (bs : List Nat) : DResult (List (List Nat × SockAddr)) :=
  match n with
  | 0 => .ok []
  | n + 1 =>
    if bs.length < 38 then .panicked
    else
      if utf8Valid (stripZeros (bs.take 32)) then
        match readPeerRecords n (bs.drop 38) with
        | .ok rest => .ok (decodeRecord bs :: rest)
        | .formatError => .formatError
        | .panicked => .panicked
      else .panicked

/-- `impl TryFrom<Vec<u8>> for MemberResponse` (format.rs lines 225-259):
32-byte group read, count byte, then `count` records.  Note the count byte
is used as read, with no comparison against the 5-entry cap. -/
def memberResponseTryFrom (bs : List Nat) : DResult MemberResponse :=
  if bs.length < 32 then .panicked
  else
    if utf8Valid (stripZeros (bs.take 32)) then
      match bs.drop 32 with
      | [] => .panicked
      | n :: rest =>
        match readPeerRecords n rest with
        | .ok ps => .ok { group := stripZeros (bs.take 32), member_number := n, peers := ps }
        | .formatError => .formatError
        | .panicked => .panicked
    else .panicked

/-- The Chat struct of format.rs. -/
structure Chat where
  peer_id : List Nat
  msg : List Nat
deriving DecidableEq

/-- Chat::new (format.rs lines 307-312): no validation at all. -/
def chatNew (peer_id msg : List Nat) : Chat :=
  { peer_id := peer_id, msg := msg }

/-- `impl Into<Vec<u8>> for Chat` (format.rs lines 268-278): 32 peer-id
bytes (zero padded, constructor-validated domain of at most 32), then
`msg.len() as u8` — a plain u8 cast, wrapping modulo 256 — then the whole
message body.  There is no length check anywhere on this path. -/
def chatIntoBytes (c : Chat) : List Nat :=
  pad32 c.peer_id ++ (c.msg.length % 256) :: c.msg

/-- A Chat whose text is 256 bytes long (256 times the byte 0x61). -/
def chatOversized : Chat := chatNew [0x70] (List.replicate 256 0x61)

/-! ## Neighbour directory (src/peer/structures.rs) and handler arms
(src/peer/mod.rs).  Instants and durations are natural numbers of
seconds; group names and peer ids at this layer are Lean strings, as the
handler arms operate on already-decoded content. -/

/-- TTL_RENEWAL = Duration::from_secs(30) (mod.rs line 11). -/
def ttlRenewal : Nat := 30

/-- The NeighbourEntry struct of structures.rs: id, address, expiry. -/
structure NeighbourEntry where
  id : String
  addr : SockAddr
  ttl : Nat
deriving DecidableEq

/-- NeighbourEntry::ttl_expired (structures.rs lines 26-29): strictly
`self.ttl < now`, with `now` passed explicitly here in place of the
`Instant::now()` call. -/
def ttlExpired (e : NeighbourEntry) (now : Nat) : Bool :=
  decide (e.ttl < now)

/-- NeighbourEntry::update_ttl (structures.rs lines 31-33): adds the
duration to the current expiry. -/
def updateTtl (e : NeighbourEntry) (value : Nat) : NeighbourEntry :=
  { e with ttl := e.ttl + value }

/-- NeighbourMap::contains_peer (structures.rs lines 56-58). -/
def containsPeer (peer_id : String) (l : List NeighbourEntry) : Bool :=
  l.any (fun e => e.id == peer_id)

/-- NeighbourMap::find_peer (structures.rs lines 64-66): the first entry
with the given id. -/
def findPeer (peer_id : String) (l : List NeighbourEntry) : Option NeighbourEntry :=
  l.find? (fun e => e.id == peer_id)

/-- How many entries of the list carry the given id. -/
def countId (peer_id : String) (l : List NeighbourEntry) : Nat :=
  (l.filter (fun e => e.id == peer_id)).length

/-- The effect of `find_peer_mut(..).unwrap().update_ttl(d)`: the first
entry with the given id gets its ttl extended, the rest is unchanged. -/
def renewFirst (peer_id : String) (d : Nat) : List NeighbourEntry → List NeighbourEntry
  | [] => []
  | e :: rest => if e.id == peer_id then updateTtl e d :: rest else e :: renewFirst peer_id d rest

/-- `self.peers.iter().position(|e| e.ttl_expired())` of
NeighbourMap::remove_expired. -/
def findExpiredIdx (now : Nat) : List NeighbourEntry → Option Nat
  | [] => none
  | e :: rest =>
    if ttlExpired e now then some 0
    else (findExpiredIdx now rest).map (· + 1)

/-- Vec::remove: drop the element at the given index, shifting the
remainder left. -/
def removeIdx : List NeighbourEntry → Nat → List NeighbourEntry
  | [], _ => []
  | _ :: rest, 0 => rest
  | e :: rest, i + 1 => e :: removeIdx rest i

/-- The while-loop of NeighbourMap::remove_expired (structures.rs lines
72-76), with fuel bounding the number of removals. -/
def removeExpiredLoop (now : Nat) : Nat → List NeighbourEntry → List NeighbourEntry
  | 0, l => l
  | fuel + 1, l =>
    match findExpiredIdx now l with
    | none => l
    | some i => removeExpiredLoop now fuel (removeIdx l i)

/-- NeighbourMap::remove_expired at instant `now`: the loop can remove at
most one entry per iteration, so the list length is enough fuel. -/
def removeExpired (now : Nat) (l : List NeighbourEntry) : List NeighbourEntry :=
  removeExpiredLoop now l.length l

/-- The shared map from group name to neighbour list
(`HashMap<String, NeighbourMap>` in mod.rs), as an association list. -/
abbrev PeerMap : Type := List (String × List NeighbourEntry)

/-- HashMap::contains_key. -/
def containsGroup (g : String) (m : PeerMap) : Bool :=
  m.any (fun p => p.1 == g)

/-- HashMap::get: the list bound to the first occurrence of the key. -/
def lookupGroup (g : String) (m : PeerMap) : Option (List NeighbourEntry) :=
  (m.find? (fun p => p.1 == g)).map (fun p => p.2)

/-- The `if !contains_key { insert(g, NeighbourMap::new()) }` prologue of
the MemberReq and MemberRes arms. -/
def ensureGroup (g : String) (m : PeerMap) : PeerMap :=
  if containsGroup g m then m else m ++ [(g, [])]

/-- Writing back the mutated list of one group (the in-place mutation
through HashMap::get_mut): replaces the value at the first occurrence of
the key. -/
def setGroup (g : String) (l : List NeighbourEntry) : PeerMap → PeerMap
  | [] => []
  | p :: rest => if p.1 == g then (p.1, l) :: rest else p :: setGroup g l rest

/-- The Alive arm of run_message_handler_thread (mod.rs lines 199-218):
for every group whose list contains the sender id, the first entry with
that id gets its ttl extended by TTL_RENEWAL; everything else is left
untouched. -/
def aliveArm (peer_id : String) (m : PeerMap) : PeerMap :=
  m.map (fun p =>
    (p.1, if containsPeer peer_id p.2 then renewFirst peer_id ttlRenewal p.2 else p.2))

/-- The guarded insert of the MemberReq arm (mod.rs lines 240-244): if
the sender id is not yet present it is appended with the packet source
address and the initial ttl now + TTL_RENEWAL + 120 seconds. -/
def memberReqInsert (peer_id : String) (src : SockAddr) (now : Nat)
    (l : List NeighbourEntry) : List NeighbourEntry :=
  if containsPeer peer_id l then l
  else l ++ [{ id := peer_id, addr := src, ttl := now + ttlRenewal + 120 }]

/-- The response of the MemberReq arm (mod.rs lines 246-258): the group
list without the sender, passed to `MemberResponse::new(..).unwrap()` —
which panics when more than 5 peers remain, or the group name exceeds 32
bytes, and then nothing is sent back. -/
def memberReqResponse (peer_id grp : String) (src : SockAddr)
    (l2 : List NeighbourEntry) : DResult (SockAddr × List (String × SockAddr)) :=
  if ((l2.filter (fun e => !(e.id == peer_id))).map (fun e => (e.id, e.addr))).length > 5 then
    .panicked
  else if grp.length > 32 then .panicked
  else .ok (src, (l2.filter (fun e => !(e.id == peer_id))).map (fun e => (e.id, e.addr)))

/-- The MemberReq arm of run_message_handler_thread (mod.rs lines
219-258): create the group slot if absent, run the guarded insert on the
group list, write it back, and build the response.  Returns the new map
and the outcome of the response construction. -/
def memberReqArm (peer_id grp : String) (src : SockAddr) (now : Nat) (m : PeerMap) :
    PeerMap × DResult (SockAddr × List (String × SockAddr)) :=
  let m1 := ensureGroup grp m
  let l2 := memberReqInsert peer_id src now ((lookupGroup grp m1).getD [])
  (setGroup grp l2 m1, memberReqResponse peer_id grp src l2)

/-- The per-peer loop of the MemberRes arm (mod.rs lines 281-286): each
listed (id, addr) is appended with ttl now + TTL_RENEWAL if the id is not
already present; known ids are skipped entirely. -/
def handleResList (ps : List (String × SockAddr)) (now : Nat)
    (l : List NeighbourEntry) : List NeighbourEntry :=
  match ps with
  | [] => l
  | (pid, a) :: rest =>
    handleResList rest now
      (if containsPeer pid l then l
       else l ++ [{ id := pid, addr := a, ttl := now + ttlRenewal }])

/-- The MemberRes arm of run_message_handler_thread (mod.rs lines
260-287): ensure the group slot, then fold the listed peers through the
guarded insert. -/
def memberResArm (grp : String) (ps : List (String × SockAddr)) (now : Nat)
    (m : PeerMap) : PeerMap :=
  let m1 := ensureGroup grp m
  setGroup grp (handleResList ps now ((lookupGroup grp m1).getD [])) m1

/-- The address attached to the first occurrence of an id in a
MemberResponse peer list. -/
def firstAddr (c : String) : List (String × SockAddr) → Option SockAddr
  | [] => none
  | (pid, a) :: rest => if pid == c then some a else firstAddr c rest

/-- A sample address used by concrete instances. -/
def addr0 : SockAddr := { ip := [127, 0, 0, 1], port := 2000 }

/-- A second, distinct sample address. -/
def addr1 : SockAddr := { ip := [10, 0, 0, 2], port := 3000 }

/-- A printable ASCII byte: 0x20 (space) through 0x7E (tilde). -/
def printableAscii (b : Nat) : Bool :=
  decide (0x20 ≤ b) && decide (b ≤ 0x7E)

/-- A sample entry: peer "a" at addr0 expiring at instant 10. -/
def entryA : NeighbourEntry := { id := "a", addr := addr0, ttl := 10 }

/-- A sample one-group map holding only entryA. -/
def mapGA : PeerMap := [("g", [entryA])]

/-- Six entries with distinct ids, all alive at instant 200. -/
def sixEntries : List NeighbourEntry :=
  [{ id := "p1", addr := addr0, ttl := 200 }, { id := "p2", addr := addr0, ttl := 200 },
   { id := "p3", addr := addr0, ttl := 200 }, { id := "p4", addr := addr0, ttl := 200 },
   { id := "p5", addr := addr0, ttl := 200 }, { id := "p6", addr := addr0, ttl := 200 }]

/-- A one-group map already holding six members of group "g". -/
def mapSix : PeerMap := [("g", sixEntries)]

/-- A well-formed 38-byte MemberResponse record: peer id "a" (padded),
IPv4 10.0.0.1, port 1234. -/
def sampleRecord : List Nat := pad32 [0x61] ++ [10, 0, 0, 1] ++ [0x04, 0xD2]

/-- Six copies of the sample record: one more than the protocol cap. -/
def sixRecords : List (List Nat) := List.replicate 6 sampleRecord

/-! ## Lemmas about the sweep loop -/

theorem filter_eq_of_findExpiredIdx_none (now : Nat) :
    ∀ l : List NeighbourEntry, findExpiredIdx now l = none →
      l.filter (fun e => !ttlExpired e now) = l := by
  intro l
  induction l with
  | nil => intro _; rfl
  | cons e rest ih =>
    intro h
    by_cases he : ttlExpired e now
    · simp [findExpiredIdx, he] at h
    · have hrest : findExpiredIdx now rest = none := by
        by_contra hne
        rcases Option.ne_none_iff_exists.mp hne with ⟨j, hj⟩
        simp [findExpiredIdx, he, ← hj] at h
      simp [List.filter, he, ih hrest]

theorem removeIdx_of_findExpiredIdx (now : Nat) :
    ∀ (l : List NeighbourEntry) (i : Nat), findExpiredIdx now l = some i →
      (removeIdx l i).length + 1 = l.length ∧
      (removeIdx l i).filter (fun e => !ttlExpired e now)
        = l.filter (fun e => !ttlExpired e now) := by
  intro l
  induction l with
  | nil => intro i h; simp [findExpiredIdx] at h
  | cons e rest ih =>
    intro i h
    by_cases he : ttlExpired e now
    · have hi : i = 0 := by simp [findExpiredIdx, he] at h; omega
      subst hi
      exact ⟨rfl, by simp [removeIdx, List.filter, he]⟩
    · have hj : ∃ j, findExpiredIdx now rest = some j ∧ i = j + 1 := by
        simp only [findExpiredIdx, if_neg he] at h
        cases hr : findExpiredIdx now rest with
        | none => rw [hr] at h; simp at h
        | some j => rw [hr] at h; simp at h; exact ⟨j, rfl, h.symm⟩
      rcases hj with ⟨j, hr, hi⟩
      subst hi
      rcases ih j hr with ⟨hlen, hfil⟩
      refine ⟨by simpa [removeIdx] using hlen, ?_⟩
      simp [removeIdx, List.filter, he, hfil]

theorem removeExpiredLoop_eq_filter (now : Nat) :
    ∀ (fuel : Nat) (l : List NeighbourEntry), l.length ≤ fuel →
      removeExpiredLoop now fuel l = l.filter (fun e => !ttlExpired e now) := by
  intro fuel
  induction fuel with
  | zero =>
    intro l hl
    have : l = [] := List.eq_nil_of_length_eq_zero (Nat.le_zero.mp hl)
    subst this; rfl
  | succ fuel ih =>
    intro l hl
    cases h : findExpiredIdx now l with
    | none =>
      simp only [removeExpiredLoop, h]
      exact (filter_eq_of_findExpiredIdx_none now l h).symm
    | some i =>
      rcases removeIdx_of_findExpiredIdx now l i h with ⟨hlen, hfil⟩
      simp only [removeExpiredLoop, h]
      rw [ih (removeIdx l i) (by omega), hfil]

/-! ## Lemmas about padding, zero-stripping and UTF-8 -/

theorem stripZeros_replicate_zero (k : Nat) :
    stripZeros (List.replicate k 0) = [] := by
  induction k with
  | zero => rfl
  | succ k ih => simp only [stripZeros, List.replicate, List.filter] at ih ⊢; exact ih

theorem stripZeros_eq_self {l : List Nat} (h : ∀ b ∈ l, b ≠ 0) :
    stripZeros l = l := by
  refine List.filter_eq_self.mpr ?_
  intro b hb
  simpa using h b hb

theorem stripZeros_pad32 {l : List Nat} (h : ∀ b ∈ l, b ≠ 0) :
    stripZeros (pad32 l) = l := by
  unfold pad32 stripZeros
  rw [List.filter_append]
  have h1 := stripZeros_eq_self h
  have h2 := stripZeros_replicate_zero (32 - l.length)
  unfold stripZeros at h1 h2
  rw [h1, h2, List.append_nil]

theorem utf8Chunk_ascii {b : Nat} (rest : List Nat) (hb : b ≤ 0x7F) :
    utf8Chunk b rest = some rest := by
  unfold utf8Chunk
  rw [if_pos hb]

theorem utf8ValidLoop_of_ascii :
    ∀ (fuel : Nat) (l : List Nat), l.length ≤ fuel → (∀ b ∈ l, b ≤ 0x7F) →
      utf8ValidLoop fuel l = true := by
  intro fuel
  induction fuel with
  | zero =>
    intro l hl _
    have : l = [] := List.eq_nil_of_length_eq_zero (Nat.le_zero.mp hl)
    subst this; rfl
  | succ fuel ih =>
    intro l hl h
    cases l with
    | nil => rfl
    | cons b rest =>
      have hb : b ≤ 0x7F := h b (List.mem_cons_self b rest)
      simp only [utf8ValidLoop, utf8Chunk_ascii rest hb]
      exact ih rest (by simp at hl; omega)
        (fun c hc => h c (List.mem_cons_of_mem b hc))

theorem utf8Valid_of_ascii {l : List Nat} (h : ∀ b ∈ l, b ≤ 0x7F) :
    utf8Valid l = true :=
  utf8ValidLoop_of_ascii l.length l (Nat.le_refl _) h

theorem printable_ne_zero {b : Nat} (h : printableAscii b = true) : b ≠ 0 := by
  unfold printableAscii at h
  simp only [Bool.and_eq_true, decide_eq_true_eq] at h
  omega

theorem printable_le_7F {b : Nat} (h : printableAscii b = true) : b ≤ 0x7F := by
  unfold printableAscii at h
  simp only [Bool.and_eq_true, decide_eq_true_eq] at h
  omega

theorem pad32_length {l : List Nat} (h : l.length ≤ 32) : (pad32 l).length = 32 := by
  simp [pad32]
  omega

/-! ## Lemmas about entry lists -/

theorem containsPeer_cons (c : String) (e : NeighbourEntry) (l : List NeighbourEntry) :
    containsPeer c (e :: l) = ((e.id == c) || containsPeer c l) := by
  simp [containsPeer]

theorem containsPeer_append (c : String) (l1 l2 : List NeighbourEntry) :
    containsPeer c (l1 ++ l2) = (containsPeer c l1 || containsPeer c l2) := by
  simp [containsPeer]

theorem findPeer_cons_pos {c : String} {e : NeighbourEntry} (l : List NeighbourEntry)
    (h : (e.id == c) = true) : findPeer c (e :: l) = some e := by
  unfold findPeer
  exact List.find?_cons_of_pos l h

theorem findPeer_cons_neg {c : String} {e : NeighbourEntry} (l : List NeighbourEntry)
    (h : (e.id == c) = false) : findPeer c (e :: l) = findPeer c l := by
  unfold findPeer
  exact List.find?_cons_of_neg l (by simp [h])

theorem findPeer_append_of_contains {c : String} {l1 : List NeighbourEntry}
    (l2 : List NeighbourEntry) (h : containsPeer c l1 = true) :
    findPeer c (l1 ++ l2) = findPeer c l1 := by
  induction l1 with
  | nil => simp [containsPeer] at h
  | cons e rest ih =>
    by_cases he : (e.id == c) = true
    · rw [List.cons_append, findPeer_cons_pos _ he, findPeer_cons_pos _ he]
    · rw [containsPeer_cons, Bool.eq_false_iff.mpr he, Bool.false_or] at h
      rw [List.cons_append, findPeer_cons_neg _ (Bool.eq_false_iff.mpr he),
        findPeer_cons_neg _ (Bool.eq_false_iff.mpr he)]
      exact ih h

theorem findPeer_append_of_not_contains {c : String} {l1 : List NeighbourEntry}
    (l2 : List NeighbourEntry) (h : containsPeer c l1 = false) :
    findPeer c (l1 ++ l2) = findPeer c l2 := by
  induction l1 with
  | nil => rfl
  | cons e rest ih =>
    rw [containsPeer_cons, Bool.or_eq_false_iff] at h
    rw [List.cons_append, findPeer_cons_neg _ h.1]
    exact ih h.2

theorem countId_append (c : String) (l1 l2 : List NeighbourEntry) :
    countId c (l1 ++ l2) = countId c l1 + countId c l2 := by
  simp [countId]

theorem countId_zero_of_not_contains {c : String} {l : List NeighbourEntry}
    (h : containsPeer c l = false) : countId c l = 0 := by
  unfold countId
  rw [List.length_eq_zero]
  rw [List.filter_eq_nil_iff]
  intro e he
  unfold containsPeer at h
  rw [List.any_eq_false] at h
  simpa using h e he

theorem containsPeer_of_findPeer {c : String} {l : List NeighbourEntry}
    {e : NeighbourEntry} (h : findPeer c l = some e) : containsPeer c l = true := by
  unfold findPeer at h
  unfold containsPeer
  rw [List.any_eq_true]
  have hm := List.find?_some h
  have hmem := List.mem_of_find?_eq_some h
  exact ⟨e, hmem, hm⟩

theorem id_of_findPeer {c : String} {l : List NeighbourEntry}
    {e : NeighbourEntry} (h : findPeer c l = some e) : e.id = c := by
  have := List.find?_some h
  simpa using this

/-! ## Lemmas about renewFirst (the Alive update) -/

theorem renewFirst_of_not_contains {p : String} {l : List NeighbourEntry} (d : Nat)
    (h : containsPeer p l = false) : renewFirst p d l = l := by
  induction l with
  | nil => rfl
  | cons e rest ih =>
    rw [containsPeer_cons, Bool.or_eq_false_iff] at h
    unfold renewFirst
    rw [if_neg (by simp [h.1]), ih h.2]

theorem findPeer_renewFirst {p : String} {l : List NeighbourEntry} {e : NeighbourEntry}
    (d : Nat) (h : findPeer p l = some e) :
    findPeer p (renewFirst p d l) = some (updateTtl e d) := by
  induction l with
  | nil => simp [findPeer, List.find?] at h
  | cons e0 rest ih =>
    by_cases he : (e0.id == p) = true
    · rw [findPeer_cons_pos rest he] at h
      injection h with h
      subst h
      unfold renewFirst
      rw [if_pos he]
      exact findPeer_cons_pos _ (by simpa [updateTtl] using he)
    · have hne := Bool.eq_false_iff.mpr he
      rw [findPeer_cons_neg rest hne] at h
      unfold renewFirst
      rw [if_neg (by simp [hne])]
      rw [findPeer_cons_neg _ hne]
      exact ih h

/-! ## Lemmas about the group map -/

theorem lookupGroup_of_contains {g : String} {m : PeerMap}
    (h : containsGroup g m = true) : ∃ l, lookupGroup g m = some l := by
  induction m with
  | nil => simp [containsGroup] at h
  | cons p rest ih =>
    by_cases hp : (p.1 == g) = true
    · exact ⟨p.2, by unfold lookupGroup; rw [List.find?_cons_of_pos rest hp]; rfl⟩
    · have hne := Bool.eq_false_iff.mpr hp
      rw [containsGroup, List.any_cons, Bool.or_eq_true] at h
      rcases h with h | h
      · exact absurd h hp
      · rcases ih h with ⟨l, hl⟩
        refine ⟨l, ?_⟩
        unfold lookupGroup at hl ⊢
        rw [List.find?_cons_of_neg rest (by simp [hne])]
        exact hl

theorem lookupGroup_append_self {g : String} {m : PeerMap} (l0 : List NeighbourEntry)
    (h : containsGroup g m = false) :
    lookupGroup g (m ++ [(g, l0)]) = some l0 := by
  induction m with
  | nil => simp [lookupGroup, List.find?]
  | cons p rest ih =>
    rw [containsGroup, List.any_cons, Bool.or_eq_false_iff] at h
    unfold lookupGroup
    rw [List.cons_append, List.find?_cons_of_neg _ (by simp [h.1])]
    exact ih h.2

theorem lookupGroup_none_of_not_contains {g : String} {m : PeerMap}
    (h : containsGroup g m = false) : lookupGroup g m = none := by
  induction m with
  | nil => rfl
  | cons p rest ih =>
    rw [containsGroup, List.any_cons, Bool.or_eq_false_iff] at h
    unfold lookupGroup
    rw [List.find?_cons_of_neg _ (by simp [h.1])]
    exact ih h.2

theorem lookup_ensureGroup (g : String) (m : PeerMap) :
    lookupGroup g (ensureGroup g m) = some ((lookupGroup g m).getD []) := by
  unfold ensureGroup
  cases hc : containsGroup g m with
  | true =>
    rcases lookupGroup_of_contains hc with ⟨l, hl⟩
    rw [if_pos rfl, hl]
    rfl
  | false =>
    rw [if_neg (by simp)]
    rw [lookupGroup_none_of_not_contains hc]
    exact lookupGroup_append_self [] hc

theorem lookup_setGroup {g : String} {m : PeerMap} {l0 : List NeighbourEntry}
    (l : List NeighbourEntry) (h : lookupGroup g m = some l0) :
    lookupGroup g (setGroup g l m) = some l := by
  induction m with
  | nil => simp [lookupGroup, List.find?] at h
  | cons p rest ih =>
    by_cases hp : (p.1 == g) = true
    · unfold setGroup
      rw [if_pos hp]
      unfold lookupGroup
      have hfind : List.find? (fun q => q.1 == g) ((p.1, l) :: rest) = some (p.1, l) :=
        List.find?_cons_of_pos rest hp
      rw [hfind]
      rfl
    · have hne := Bool.eq_false_iff.mpr hp
      unfold lookupGroup at h
      rw [List.find?_cons_of_neg _ (by simp [hne])] at h
      unfold setGroup
      rw [if_neg (by simp [hne])]
      unfold lookupGroup
      rw [List.find?_cons_of_neg _ (by simp [hne])]
      exact ih h

/-! ## Claim C1 -/

/-- C1 (code_bug evidence): decoding is not total.  A 4-byte header whose
type nibble is the unrecognized value 0x03 reaches the panic arm of
MessageType::from instead of returning a ProtocolError (no such error type
exists in the code), and a 1-byte truncated buffer panics on the unwrapped
cursor read instead of returning a FormatError. -/
theorem header_decode_panics_on_bad_input :
    headerTryFrom [0x9D, 0x13, 0x00, 0x00] = DResult.panicked ∧
    headerTryFrom [0x9D] = DResult.panicked := by
  constructor <;> rfl

/-! ## Claim C2 -/

/-- C2 (code_bug evidence): the header round-trip fails for any nonzero
version.  Encoding Header::new(1, Alive, 0) and decoding it back yields
version 16 (the decoder masks with 0xF0 but never shifts right by 4), so
decode(encode(h)) differs from h. -/
theorem header_roundtrip_fails_on_version :
    headerTryFrom (headerIntoBytes (Header.new 1 MessageType.alive 0))
      = DResult.ok { magic_bytes := 0x9D, version := 16, msg_type := MessageType.alive, size := 0 } ∧
    ({ magic_bytes := 0x9D, version := 16, msg_type := MessageType.alive, size := 0 } : Header)
      ≠ Header.new 1 MessageType.alive 0 := by
  constructor
  · rfl
  · decide

/-! ## Claim C3 -/

/-- C3 (code_bug evidence): encoding a Chat whose text is 256 bytes long
does not fail with a FormatError and does produce bytes — a 289-byte
buffer whose length byte (offset 32) is 0, because the cast of msg.len()
to u8 silently wraps 256 to 0.  No length check exists on the Chat encode
path. -/
theorem chat_encode_accepts_oversized_msg :
    (chatIntoBytes chatOversized).length = 289 ∧
    (chatIntoBytes chatOversized)[32]? = some 0 := by
  constructor <;> rfl

/-! ## Claim C5 -/

/-- C5 counterexample: an entry whose expiry equals `now` has expiry ≤ now
but survives the sweep, because ttl_expired tests `ttl < now` strictly —
so the sweep does not remove every entry with expiry ≤ now. -/
theorem sweep_keeps_boundary_entry :
    ({ id := "a", addr := addr0, ttl := 5 } : NeighbourEntry).ttl ≤ 5 ∧
    removeExpired 5 [{ id := "a", addr := addr0, ttl := 5 }]
      = [{ id := "a", addr := addr0, ttl := 5 }] := by
  constructor
  · decide
  · rfl

/-- C5 as amended: for every instant `now` and every directory list,
the remove_expired while-loop removes exactly the entries whose expiry is
strictly below `now`, and the survivors keep their relative insertion
order (the result is the order-preserving filter of the input, hence a
sublist of it). -/
theorem sweep_removes_exactly_strictly_expired (now : Nat) (l : List NeighbourEntry) :
    removeExpired now l = l.filter (fun e => !decide (e.ttl < now)) ∧
    (removeExpired now l).Sublist l := by
  have h := removeExpiredLoop_eq_filter now l.length l (Nat.le_refl _)
  refine ⟨h, ?_⟩
  rw [removeExpired, h]
  exact List.filter_sublist l

/-! ## Claim C4 -/

theorem memberRequestTryFrom_padded (g p : List Nat)
    (hgz : ∀ b ∈ g, b ≠ 0) (hpz : ∀ b ∈ p, b ≠ 0)
    (hga : ∀ b ∈ g, b ≤ 0x7F) (hpa : ∀ b ∈ p, b ≤ 0x7F)
    (hgl : g.length ≤ 32) (hpl : p.length ≤ 32) :
    memberRequestTryFrom (pad32 g ++ pad32 p) = DResult.ok { peer_id := p, group := g } := by
  unfold memberRequestTryFrom
  have hlg := pad32_length hgl
  have hlp := pad32_length hpl
  have hlen : (pad32 g ++ pad32 p).length = 64 := by
    rw [List.length_append, hlg, hlp]
  rw [if_neg (by omega)]
  have htake : (pad32 g ++ pad32 p).take 32 = pad32 g := List.take_left' hlg
  have hdrop : (pad32 g ++ pad32 p).drop 32 = pad32 p := List.drop_left' hlg
  have htake2 : (pad32 p).take 32 = pad32 p := by
    rw [← hlp]; exact List.take_length (pad32 p)
  rw [htake, hdrop, htake2, stripZeros_pad32 hgz, stripZeros_pad32 hpz]
  rw [if_pos ⟨utf8Valid_of_ascii hga, utf8Valid_of_ascii hpa⟩]

/-- C4: for every group name and peer id of printable ASCII of at most 32
bytes, MemberRequest::new succeeds, and decoding the encoding returns the
original group and peer id (the zero padding is stripped by the decoder
filter). -/
theorem memberRequest_roundtrip (peer_id group : List Nat)
    (hp : ∀ b ∈ peer_id, printableAscii b = true)
    (hg : ∀ b ∈ group, printableAscii b = true)
    (hpl : peer_id.length ≤ 32) (hgl : group.length ≤ 32) :
    memberRequestNew peer_id group = Except.ok { peer_id := peer_id, group := group } ∧
    memberRequestTryFrom (memberRequestIntoBytes { peer_id := peer_id, group := group })
      = DResult.ok { peer_id := peer_id, group := group } := by
  have hgz : ∀ b ∈ group, b ≠ 0 := fun b hb => printable_ne_zero (hg b hb)
  have hpz : ∀ b ∈ peer_id, b ≠ 0 := fun b hb => printable_ne_zero (hp b hb)
  have hga : ∀ b ∈ group, b ≤ 0x7F := fun b hb => printable_le_7F (hg b hb)
  have hpa : ∀ b ∈ peer_id, b ≤ 0x7F := fun b hb => printable_le_7F (hp b hb)
  constructor
  · unfold memberRequestNew
    rw [if_neg (by omega), if_neg (by omega)]
  · have hb : memberRequestIntoBytes { peer_id := peer_id, group := group }
        = pad32 group ++ pad32 peer_id := rfl
    rw [hb]
    exact memberRequestTryFrom_padded group peer_id hgz hpz hga hpa hgl hpl

/-- C4 witness: the round-trip theorem applied to the concrete peer id
"p" (byte 0x70) and group "g" (byte 0x67). -/
theorem memberRequest_roundtrip_witness :
    memberRequestNew [0x70] [0x67] = Except.ok { peer_id := [0x70], group := [0x67] } ∧
    memberRequestTryFrom (memberRequestIntoBytes { peer_id := [0x70], group := [0x67] })
      = DResult.ok { peer_id := [0x70], group := [0x67] } :=
  memberRequest_roundtrip [0x70] [0x67] (by decide) (by decide) (by decide) (by decide)

/-! ## Lemmas about the Alive arm -/

theorem aliveArm_of_absent {p : String} {m : PeerMap}
    (h : ∀ gl ∈ m, containsPeer p gl.2 = false) : aliveArm p m = m := by
  unfold aliveArm
  induction m with
  | nil => rfl
  | cons q rest ih =>
    rw [List.map_cons]
    have hq := h q (List.mem_cons_self q rest)
    rw [hq]
    simp only [Bool.false_eq_true, if_false]
    rw [ih (fun gl hgl => h gl (List.mem_cons_of_mem q hgl))]

theorem aliveArm_cons (p : String) (q : String × List NeighbourEntry)
    (rest : PeerMap) :
    aliveArm p (q :: rest)
      = (q.1, if containsPeer p q.2 then renewFirst p ttlRenewal q.2 else q.2)
          :: aliveArm p rest := rfl

theorem lookup_aliveArm {g : String} {m : PeerMap} {l : List NeighbourEntry} (p : String)
    (h : lookupGroup g m = some l) :
    lookupGroup g (aliveArm p m)
      = some (if containsPeer p l then renewFirst p ttlRenewal l else l) := by
  induction m with
  | nil => simp [lookupGroup, List.find?] at h
  | cons q rest ih =>
    by_cases hq : (q.1 == g) = true
    · unfold lookupGroup at h
      rw [List.find?_cons_of_pos rest hq] at h
      have hl : q.2 = l := by
        simpa using h
      subst hl
      rw [aliveArm_cons]
      unfold lookupGroup
      have hfind : List.find? (fun r => r.1 == g)
          ((q.1, if containsPeer p q.2 then renewFirst p ttlRenewal q.2 else q.2)
            :: (aliveArm p rest)) =
          some (q.1, if containsPeer p q.2 then renewFirst p ttlRenewal q.2 else q.2) :=
        List.find?_cons_of_pos _ hq
      rw [hfind]
      rfl
    · have hne := Bool.eq_false_iff.mpr hq
      unfold lookupGroup at h
      rw [List.find?_cons_of_neg rest (by simp [hne])] at h
      rw [aliveArm_cons]
      unfold lookupGroup
      rw [List.find?_cons_of_neg _ (by simp [hne])]
      exact ih h

/-! ## Claim C7 -/

/-- C7: when a received Alive carries peer id p, any group whose list has
an entry for p gets that entry renewed — its expiry extended by exactly
TTL_RENEWAL — and when no group contains p the whole map is left
completely unchanged (no auto-registration). -/
theorem alive_renews_existing_and_ignores_unknown (p : String) (m : PeerMap) :
    ((∀ gl ∈ m, containsPeer p gl.2 = false) → aliveArm p m = m) ∧
    (∀ g l e, lookupGroup g m = some l → findPeer p l = some e →
      ∃ l2, lookupGroup g (aliveArm p m) = some l2 ∧
        findPeer p l2 = some { id := e.id, addr := e.addr, ttl := e.ttl + ttlRenewal }) := by
  constructor
  · exact aliveArm_of_absent
  · intro g l e hl hf
    have hc := containsPeer_of_findPeer hf
    refine ⟨renewFirst p ttlRenewal l, ?_, ?_⟩
    · rw [lookup_aliveArm p hl, if_pos hc]
    · have hr := findPeer_renewFirst ttlRenewal hf
      simpa [updateTtl] using hr

/-- C7 witness: on the concrete map mapGA, an Alive from the unknown id
"z" leaves the map unchanged, and an Alive from the known id "a" extends
the expiry of its entry from 10 to 10 + 30. -/
theorem alive_renews_witness :
    (aliveArm "z" mapGA = mapGA) ∧
    (∃ l2, lookupGroup "g" (aliveArm "a" mapGA) = some l2 ∧
      findPeer "a" l2 = some { id := "a", addr := addr0, ttl := entryA.ttl + ttlRenewal }) :=
  ⟨(alive_renews_existing_and_ignores_unknown "z" mapGA).1 (by decide),
   (alive_renews_existing_and_ignores_unknown "a" mapGA).2 "g" [entryA] entryA
     (by decide) (by decide)⟩

/-! ## Lemmas about the MemberRes arm -/

theorem findPeer_of_contains {c : String} {l : List NeighbourEntry}
    (h : containsPeer c l = true) : ∃ e, findPeer c l = some e := by
  unfold containsPeer at h
  rw [List.any_eq_true] at h
  rcases h with ⟨e, he, hid⟩
  have hs : (List.find? (fun e => e.id == c) l).isSome := by
    rw [List.find?_isSome]
    exact ⟨e, he, hid⟩
  exact Option.isSome_iff_exists.mp hs

theorem handleResList_cons (pid : String) (a : SockAddr)
    (rest : List (String × SockAddr)) (now : Nat) (l : List NeighbourEntry) :
    handleResList ((pid, a) :: rest) now l
      = handleResList rest now
          (if containsPeer pid l then l
           else l ++ [{ id := pid, addr := a, ttl := now + ttlRenewal }]) := rfl

theorem countId_single_other {c pid : String} (a : SockAddr) (t : Nat)
    (h : (pid == c) = false) :
    countId c [{ id := pid, addr := a, ttl := t }] = 0 := by
  simp [countId, List.filter, h]

theorem countId_single_self (c : String) (a : SockAddr) (t : Nat) :
    countId c [{ id := c, addr := a, ttl := t }] = 1 := by
  simp [countId, List.filter]

theorem handleResList_preserves {c : String} :
    ∀ (ps : List (String × SockAddr)) (now : Nat) (l : List NeighbourEntry),
      containsPeer c l = true →
      findPeer c (handleResList ps now l) = findPeer c l ∧
      countId c (handleResList ps now l) = countId c l := by
  intro ps
  induction ps with
  | nil => intro now l _; exact ⟨rfl, rfl⟩
  | cons pa rest ih =>
    intro now l h
    obtain ⟨pid, a⟩ := pa
    rw [handleResList_cons]
    by_cases hg : containsPeer pid l = true
    · rw [if_pos hg]
      exact ih now l h
    · have hg2 : containsPeer pid l = false := Bool.eq_false_iff.mpr hg
      rw [if_neg (by simp [hg2])]
      have hne : (pid == c) = false := by
        rcases Bool.eq_false_or_eq_true (pid == c) with hb | hb
        · have hpc : pid = c := by simpa using hb
          rw [hpc, h] at hg2
          cases hg2
        · exact hb
      have hc2 : containsPeer c (l ++ [{ id := pid, addr := a, ttl := now + ttlRenewal }]) = true := by
        rw [containsPeer_append, h, Bool.true_or]
      rcases ih now _ hc2 with ⟨hf, hn⟩
      refine ⟨?_, ?_⟩
      · rw [hf, findPeer_append_of_contains _ h]
      · rw [hn, countId_append, countId_single_other a _ hne]
        exact Nat.add_zero _

theorem handleResList_inserts {c : String} :
    ∀ (ps : List (String × SockAddr)) (a : SockAddr) (now : Nat) (l : List NeighbourEntry),
      containsPeer c l = false → firstAddr c ps = some a →
      findPeer c (handleResList ps now l)
        = some { id := c, addr := a, ttl := now + ttlRenewal } ∧
      countId c (handleResList ps now l) = 1 := by
  intro ps
  induction ps with
  | nil => intro a now l _ hfa; simp [firstAddr] at hfa
  | cons pa rest ih =>
    intro a now l h hfa
    obtain ⟨pid, a0⟩ := pa
    rw [handleResList_cons]
    by_cases hpc : (pid == c) = true
    · have hpid : pid = c := by simpa using hpc
      have ha : a0 = a := by
        unfold firstAddr at hfa
        rw [if_pos hpc] at hfa
        simpa using hfa
      rw [hpid, ha, if_neg (by simp [h])]
      have hc2 : containsPeer c (l ++ [{ id := c, addr := a, ttl := now + ttlRenewal }]) = true := by
        rw [containsPeer_append]
        simp [containsPeer]
      rcases handleResList_preserves rest now _ hc2 with ⟨hf, hn⟩
      refine ⟨?_, ?_⟩
      · rw [hf, findPeer_append_of_not_contains _ h]
        exact findPeer_cons_pos _ (by simp)
      · rw [hn, countId_append, countId_zero_of_not_contains h, countId_single_self]
    · have hne := Bool.eq_false_iff.mpr hpc
      have hfa2 : firstAddr c rest = some a := by
        unfold firstAddr at hfa
        rw [if_neg (by simp [hne])] at hfa
        exact hfa
      by_cases hg : containsPeer pid l = true
      · rw [if_pos hg]
        exact ih a now l h hfa2
      · have hg2 := Bool.eq_false_iff.mpr hg
        rw [if_neg (by simp [hg2])]
        have hc2 : containsPeer c (l ++ [{ id := pid, addr := a0, ttl := now + ttlRenewal }]) = false := by
          rw [containsPeer_append, h]
          simp [containsPeer, hne]
        exact ih a now _ hc2 hfa2

theorem lookup_memberResArm (grp : String) (ps : List (String × SockAddr))
    (now : Nat) (m : PeerMap) :
    lookupGroup grp (memberResArm grp ps now m)
      = some (handleResList ps now ((lookupGroup grp m).getD [])) := by
  have h1 := lookup_ensureGroup grp m
  have hgd : (lookupGroup grp (ensureGroup grp m)).getD [] = (lookupGroup grp m).getD [] := by
    rw [h1]
    rfl
  show lookupGroup grp
      (setGroup grp (handleResList ps now ((lookupGroup grp (ensureGroup grp m)).getD []))
        (ensureGroup grp m)) = _
  rw [hgd]
  exact lookup_setGroup _ h1

/-! ## Lemmas about the MemberReq arm -/

theorem lookup_memberReqArm (pid grp : String) (src : SockAddr) (now : Nat) (m : PeerMap) :
    lookupGroup grp (memberReqArm pid grp src now m).1
      = some (memberReqInsert pid src now ((lookupGroup grp m).getD [])) := by
  have h1 := lookup_ensureGroup grp m
  have hgd : (lookupGroup grp (ensureGroup grp m)).getD [] = (lookupGroup grp m).getD [] := by
    rw [h1]
    rfl
  show lookupGroup grp
      (setGroup grp (memberReqInsert pid src now ((lookupGroup grp (ensureGroup grp m)).getD []))
        (ensureGroup grp m)) = _
  rw [hgd]
  exact lookup_setGroup _ h1

theorem memberReqArm_snd (pid grp : String) (src : SockAddr) (now : Nat) (m : PeerMap) :
    (memberReqArm pid grp src now m).2
      = memberReqResponse pid grp src
          (memberReqInsert pid src now ((lookupGroup grp m).getD [])) := by
  have h1 := lookup_ensureGroup grp m
  have hgd : (lookupGroup grp (ensureGroup grp m)).getD [] = (lookupGroup grp m).getD [] := by
    rw [h1]
    rfl
  show memberReqResponse pid grp src
      (memberReqInsert pid src now ((lookupGroup grp (ensureGroup grp m)).getD [])) = _
  rw [hgd]

/-! ## Claim C9 -/

/-- C9: within a group at most one entry per peer id arises from the
MemberRes arm, and the first observed address wins: whatever a later
MemberResponse says, the entry keeps the address and ttl recorded when
the id was first inserted, and any entry already present before a
MemberResponse is processed is left completely untouched (same findPeer
result, same multiplicity). -/
theorem memberRes_first_writer_wins :
    (∀ (grp : String) (ps1 ps2 : List (String × SockAddr)) (now1 now2 : Nat)
        (m : PeerMap) (c : String) (a1 : SockAddr),
      containsPeer c ((lookupGroup grp m).getD []) = false →
      firstAddr c ps1 = some a1 →
      findPeer c ((lookupGroup grp
          (memberResArm grp ps2 now2 (memberResArm grp ps1 now1 m))).getD [])
        = some { id := c, addr := a1, ttl := now1 + ttlRenewal } ∧
      countId c ((lookupGroup grp
          (memberResArm grp ps2 now2 (memberResArm grp ps1 now1 m))).getD []) = 1) ∧
    (∀ (c : String) (ps : List (String × SockAddr)) (now : Nat) (l : List NeighbourEntry),
      containsPeer c l = true →
      findPeer c (handleResList ps now l) = findPeer c l ∧
      countId c (handleResList ps now l) = countId c l) := by
  constructor
  · intro grp ps1 ps2 now1 now2 m c a1 h hfa
    have hL1 := lookup_memberResArm grp ps1 now1 m
    rcases handleResList_inserts ps1 a1 now1 _ h hfa with ⟨hf1, hn1⟩
    have hc1 : containsPeer c (handleResList ps1 now1 ((lookupGroup grp m).getD [])) = true :=
      containsPeer_of_findPeer hf1
    have hgd : (lookupGroup grp (memberResArm grp ps1 now1 m)).getD []
        = handleResList ps1 now1 ((lookupGroup grp m).getD []) := by
      rw [hL1]
      rfl
    rcases handleResList_preserves ps2 now2 _ hc1 with ⟨hf2, hn2⟩
    rw [lookup_memberResArm, Option.getD_some, hgd]
    exact ⟨hf2.trans hf1, hn2.trans hn1⟩
  · intro c ps now l h
    exact handleResList_preserves ps now l h

/-- C9 witness: starting from the empty map, two MemberResponse payloads
both naming peer "c" — first at addr0, then at addr1 — leave exactly one
entry for "c", bound to addr0 with the ttl of the first processing; and a
MemberResponse naming the already-known peer "a" leaves its entry and
multiplicity untouched. -/
theorem memberRes_first_writer_wins_witness :
    (findPeer "c" ((lookupGroup "g"
        (memberResArm "g" [("c", addr1)] 50 (memberResArm "g" [("c", addr0)] 0 []))).getD [])
      = some { id := "c", addr := addr0, ttl := 0 + ttlRenewal } ∧
     countId "c" ((lookupGroup "g"
        (memberResArm "g" [("c", addr1)] 50 (memberResArm "g" [("c", addr0)] 0 []))).getD [])
      = 1) ∧
    (findPeer "a" (handleResList [("a", addr1)] 7 [entryA]) = findPeer "a" [entryA] ∧
     countId "a" (handleResList [("a", addr1)] 7 [entryA]) = countId "a" [entryA]) :=
  ⟨memberRes_first_writer_wins.1 "g" [("c", addr0)] [("c", addr1)] 0 50 [] "c" addr0
      (by decide) (by decide),
   memberRes_first_writer_wins.2 "a" [("a", addr1)] 7 [entryA] (by decide)⟩

/-! ## Claim C6 -/

/-- C6 counterexample: the two insertion paths do NOT grant the same
grace TTL.  From the empty map at instant 0, a MemberRequest insert gets
expiry 150 (TTL_RENEWAL 30 + 120 margin) while a MemberResponse insert
gets expiry 30 (TTL_RENEWAL only), and 150 ≠ 30. -/
theorem grace_ttl_not_same :
    findPeer "b" ((lookupGroup "g" (memberReqArm "b" "g" addr0 0 []).1).getD [])
      = some { id := "b", addr := addr0, ttl := 150 } ∧
    findPeer "c" ((lookupGroup "g" (memberResArm "g" [("c", addr0)] 0 [])).getD [])
      = some { id := "c", addr := addr0, ttl := 30 } ∧
    (150 : Nat) ≠ 30 := by
  refine ⟨by decide, by decide, by decide⟩

/-- C6 as amended: an entry created by the MemberReq arm gets expiry
now + TTL_RENEWAL + 120, an entry created by the MemberRes arm gets
expiry now + TTL_RENEWAL (a shorter window — not the same); an entry
inserted via MemberRequest is still unexpired 120 seconds later absent
any Alive, and is eligible for removal exactly when the instant exceeds
now + 150. -/
theorem grace_ttl_spec (pid grp : String) (src : SockAddr) (now : Nat) (m : PeerMap)
    (h : containsPeer pid ((lookupGroup grp m).getD []) = false) :
    findPeer pid ((lookupGroup grp (memberReqArm pid grp src now m).1).getD [])
      = some { id := pid, addr := src, ttl := now + ttlRenewal + 120 } ∧
    findPeer pid ((lookupGroup grp (memberResArm grp [(pid, src)] now m)).getD [])
      = some { id := pid, addr := src, ttl := now + ttlRenewal } ∧
    ttlExpired { id := pid, addr := src, ttl := now + ttlRenewal + 120 } (now + 120) = false ∧
    (∀ t, ttlExpired { id := pid, addr := src, ttl := now + ttlRenewal + 120 } t = true
      ↔ now + 150 < t) := by
  refine ⟨?_, ?_, ?_, ?_⟩
  · rw [lookup_memberReqArm, Option.getD_some]
    unfold memberReqInsert
    rw [if_neg (by simp [h])]
    rw [findPeer_append_of_not_contains _ h]
    exact findPeer_cons_pos _ (by simp)
  · rw [lookup_memberResArm, Option.getD_some]
    have hfa : firstAddr pid [(pid, src)] = some src := by simp [firstAddr]
    exact (handleResList_inserts [(pid, src)] src now _ h hfa).1
  · unfold ttlExpired
    exact decide_eq_false
      (show ¬(now + ttlRenewal + 120 < now + 120) by unfold ttlRenewal; omega)
  · intro t
    unfold ttlExpired
    rw [decide_eq_true_eq]
    show now + ttlRenewal + 120 < t ↔ now + 150 < t
    unfold ttlRenewal
    omega

/-- C6 witness: the amended TTL theorem at pid "b", group "g", source
addr0, instant 0, empty map, and probe instant 200. -/
theorem grace_ttl_spec_witness :
    findPeer "b" ((lookupGroup "g" (memberReqArm "b" "g" addr0 0 []).1).getD [])
      = some { id := "b", addr := addr0, ttl := 0 + ttlRenewal + 120 } ∧
    findPeer "b" ((lookupGroup "g" (memberResArm "g" [("b", addr0)] 0 [])).getD [])
      = some { id := "b", addr := addr0, ttl := 0 + ttlRenewal } ∧
    ttlExpired { id := "b", addr := addr0, ttl := 0 + ttlRenewal + 120 } (0 + 120) = false ∧
    (ttlExpired { id := "b", addr := addr0, ttl := 0 + ttlRenewal + 120 } 200 = true
      ↔ 0 + 150 < 200) := by
  have h := grace_ttl_spec "b" "g" addr0 0 [] (by decide)
  exact ⟨h.1, h.2.1, h.2.2.1, h.2.2.2 200⟩

/-! ## Claim C8 -/

/-- C8 counterexample: a MemberRequest from a fresh peer "b" arriving at
a group that already holds six members makes the response construction
fail — `MemberResponse::new(..).unwrap()` panics on more than 5 peers —
so no MemberResponse is sent back, contradicting the claim that every
received MemberRequest is answered. -/
theorem memberReq_panics_on_full_group :
    (memberReqArm "b" "g" addr1 0 mapSix).2 = DResult.panicked := by decide

/-- C8 as amended: on a received MemberRequest(peer_id, group) from
source address addr, if the id is absent it is inserted bound to the
datagram source address with ttl now + TTL_RENEWAL + 120, after which
exactly one entry for it exists at that address; and PROVIDED the group
held at most 5 prior members (and the group name is within 32), a
MemberResponse goes back to the source address listing exactly the prior
members — the requester excluded; with more than 5 prior members the
response construction panics and nothing is sent. -/
theorem memberReq_inserts_and_responds (pid grp : String) (src : SockAddr) (now : Nat)
    (m : PeerMap)
    (h : containsPeer pid ((lookupGroup grp m).getD []) = false)
    (h5 : ((lookupGroup grp m).getD []).length ≤ 5)
    (h32 : grp.length ≤ 32) :
    countId pid ((lookupGroup grp (memberReqArm pid grp src now m).1).getD []) = 1 ∧
    findPeer pid ((lookupGroup grp (memberReqArm pid grp src now m).1).getD [])
      = some { id := pid, addr := src, ttl := now + ttlRenewal + 120 } ∧
    (memberReqArm pid grp src now m).2
      = DResult.ok (src, ((lookupGroup grp m).getD []).map (fun e => (e.id, e.addr))) := by
  have hl2 : memberReqInsert pid src now ((lookupGroup grp m).getD [])
      = (lookupGroup grp m).getD []
          ++ [{ id := pid, addr := src, ttl := now + ttlRenewal + 120 }] := by
    unfold memberReqInsert
    rw [if_neg (by simp [h])]
  refine ⟨?_, ?_, ?_⟩
  · rw [lookup_memberReqArm, Option.getD_some, hl2, countId_append,
      countId_zero_of_not_contains h, countId_single_self]
  · rw [lookup_memberReqArm, Option.getD_some, hl2, findPeer_append_of_not_contains _ h]
    exact findPeer_cons_pos _ (by simp)
  · rw [memberReqArm_snd, hl2]
    unfold memberReqResponse
    have hfl : ((lookupGroup grp m).getD []).filter (fun e => !(e.id == pid))
        = (lookupGroup grp m).getD [] := by
      refine List.filter_eq_self.mpr ?_
      intro e he
      unfold containsPeer at h
      rw [List.any_eq_false] at h
      simpa using h e he
    have hnew : ([{ id := pid, addr := src, ttl := now + ttlRenewal + 120 }] :
        List NeighbourEntry).filter (fun e => !(e.id == pid)) = [] := by
      simp [List.filter]
    rw [List.filter_append, hfl, hnew, List.append_nil]
    rw [if_neg (by rw [List.length_map]; omega), if_neg (by omega)]

/-- C8 witness: on mapGA (group "g" holding only peer "a" at addr0), a
MemberRequest from the fresh peer "b" at addr1 inserts exactly one entry
for "b" at addr1 with ttl 150, and the response goes back to addr1
listing just the prior member "a". -/
theorem memberReq_inserts_and_responds_witness :
    countId "b" ((lookupGroup "g" (memberReqArm "b" "g" addr1 0 mapGA).1).getD []) = 1 ∧
    findPeer "b" ((lookupGroup "g" (memberReqArm "b" "g" addr1 0 mapGA).1).getD [])
      = some { id := "b", addr := addr1, ttl := 0 + ttlRenewal + 120 } ∧
    (memberReqArm "b" "g" addr1 0 mapGA).2
      = DResult.ok (addr1, ((lookupGroup "g" mapGA).getD []).map (fun e => (e.id, e.addr))) :=
  memberReq_inserts_and_responds "b" "g" addr1 0 mapGA (by decide) (by decide) (by decide)

/-! ## Claim C10 -/

theorem take_append_of_le {α : Type} :
    ∀ (n : Nat) (l1 l2 : List α), n ≤ l1.length → (l1 ++ l2).take n = l1.take n := by
  intro n l1
  induction l1 generalizing n with
  | nil =>
    intro l2 h
    have : n = 0 := by simpa using h
    subst this
    simp
  | cons a t ih =>
    intro l2 h
    cases n with
    | zero => simp
    | succ n =>
      rw [List.cons_append, List.take_succ_cons, List.take_succ_cons,
        ih n l2 (by simpa using h)]

theorem drop_append_of_le {α : Type} :
    ∀ (n : Nat) (l1 l2 : List α), n ≤ l1.length → (l1 ++ l2).drop n = l1.drop n ++ l2 := by
  intro n l1
  induction l1 generalizing n with
  | nil =>
    intro l2 h
    have : n = 0 := by simpa using h
    subst this
    simp
  | cons a t ih =>
    intro l2 h
    cases n with
    | zero => simp
    | succ n =>
      rw [List.cons_append, List.drop_succ_cons, List.drop_succ_cons,
        ih n l2 (by simpa using h)]

theorem decodeRecord_append (r X : List Nat) (h : r.length = 38) :
    decodeRecord (r ++ X) = decodeRecord r := by
  unfold decodeRecord recordPort
  rw [take_append_of_le 32 r X (by omega),
    drop_append_of_le 32 r X (by omega),
    drop_append_of_le 36 r X (by omega),
    take_append_of_le 4 (r.drop 32) X (by rw [List.length_drop]; omega),
    take_append_of_le 2 (r.drop 36) X (by rw [List.length_drop]; omega)]

theorem readPeerRecords_flatten :
    ∀ (records : List (List Nat)),
      (∀ r ∈ records, r.length = 38 ∧ utf8Valid (stripZeros (r.take 32)) = true) →
      readPeerRecords records.length records.flatten
        = DResult.ok (records.map decodeRecord) := by
  intro records
  induction records with
  | nil => intro _; rfl
  | cons r rest ih =>
    intro h
    rcases h r (List.mem_cons_self r rest) with ⟨hlen, hutf⟩
    have hrest := fun x hx => h x (List.mem_cons_of_mem r hx)
    rw [List.length_cons, List.flatten_cons]
    unfold readPeerRecords
    rw [if_neg (by rw [List.length_append]; omega)]
    rw [take_append_of_le 32 r rest.flatten (by omega), hutf]
    rw [if_pos rfl]
    have hdrop : (r ++ rest.flatten).drop 38 = rest.flatten := by
      rw [drop_append_of_le 38 r rest.flatten (by omega)]
      rw [show r.drop 38 = [] from by rw [← hlen]; exact List.drop_length r]
      rfl
    rw [hdrop, ih hrest, decodeRecord_append r rest.flatten hlen, List.map_cons]

/-- C10: MemberResponse decoding enforces no 5-entry cap.  For every
32-byte group field (whose zero-stripped content is valid UTF-8) and
every list of up to 255 well-formed 38-byte records, decoding the buffer
`group ++ count :: records` succeeds and returns all `count` peers — in
particular for counts 6..255 that MemberResponse::new rejects with a
FormatError (second conjunct), so decode accepts values the constructor
and encoder refuse. -/
theorem memberResponse_decode_ignores_cap :
    (∀ (g : List Nat) (records : List (List Nat)),
      g.length = 32 → utf8Valid (stripZeros g) = true →
      records.length ≤ 255 →
      (∀ r ∈ records, r.length = 38 ∧ utf8Valid (stripZeros (r.take 32)) = true) →
      memberResponseTryFrom (g ++ records.length :: records.flatten)
        = DResult.ok { group := stripZeros g, member_number := records.length,
                       peers := records.map decodeRecord }) ∧
    (∀ (g2 : List Nat) (peers : List (List Nat × SockAddr)), 5 < peers.length →
      memberResponseNew g2 peers
        = Except.error { error := "More than 5 peer addresses." }) := by
  constructor
  · intro g records hg hutf _ hwf
    unfold memberResponseTryFrom
    rw [if_neg (by rw [List.length_append, List.length_cons]; omega)]
    rw [List.take_left' hg, hutf, if_pos rfl]
    rw [List.drop_left' hg]
    dsimp only
    rw [readPeerRecords_flatten records hwf]
  · intro g2 peers h
    unfold memberResponseNew
    rw [if_pos (by omega)]

/-- C10 witness: a buffer with count byte 6 followed by six well-formed
records decodes into six peers, while the constructor rejects any
six-element peer list with a FormatError. -/
theorem memberResponse_decode_ignores_cap_witness :
    memberResponseTryFrom (pad32 [0x67] ++ sixRecords.length :: sixRecords.flatten)
      = DResult.ok { group := stripZeros (pad32 [0x67]), member_number := sixRecords.length,
                     peers := sixRecords.map decodeRecord } ∧
    memberResponseNew [0x67]
        (List.replicate 6 ([0x61], { ip := [10, 0, 0, 1], port := 1234 }))
      = Except.error { error := "More than 5 peer addresses." } :=
  ⟨memberResponse_decode_ignores_cap.1 (pad32 [0x67]) sixRecords
      (by decide) (by decide) (by decide) (by decide),
   memberResponse_decode_ignores_cap.2 [0x67]
      (List.replicate 6 ([0x61], { ip := [10, 0, 0, 1], port := 1234 })) (by decide)⟩

end Peerko
